import Mathlib

/-!
Verification of the invoice normalization backend (server.js).

The JavaScript source is shallowly embedded: JS values are modelled by `JSVal`,
JS numbers by `ℚ` (with `none : Option ℚ` standing for `NaN` where the code
uses `NaN` as a sentinel), and the string sanitizers are modelled character by
character.  Code that can throw (property access on `null`/`undefined`) runs
in `Except String`.
-/

set_option autoImplicit false

namespace InvoiceBackend

/-- JavaScript runtime values, as far as the backend manipulates them.
`vnan` is the number `NaN`; `vnum` covers the finite numbers (idealized as
rationals, since every finite JS float is a decimal-representable rational). -/
inductive JSVal where
  | vundefined
  | vnull
  | vbool (b : Bool)
  | vnum (q : ℚ)
  | vnan
  | vstr (s : String)
  | vobj (fields : List (String × JSVal))
  | varr (elems : List JSVal)

/-- JS truthiness: `undefined`, `null`, `false`, `0`, `NaN` and `""` are falsy;
every object and array is truthy. -/
def jsTruthy : JSVal → Bool
  | .vundefined => false
  | .vnull => false
  | .vbool b => b
  | .vnum q => decide (q ≠ 0)
  | .vnan => false
  | .vstr s => decide (s ≠ "")
  | .vobj _ => true
  | .varr _ => true

/-- Whether `typeof v === "object"` holds (objects, arrays and `null`). -/
def jsTypeofObject : JSVal → Bool
  | .vnull => true
  | .vobj _ => true
  | .varr _ => true
  | _ => false

/-- Property read `v[f]` for a receiver that is known not to be
`null`/`undefined`: an object yields the stored field (or `undefined`),
and any other receiver yields `undefined` (boxed primitives and arrays have
no string-named own fields relevant here). -/
def jsField : JSVal → String → JSVal
  | .vobj fields, f => (fields.lookup f).getD .vundefined
  | _, _ => .vundefined

/-- In JS, reading a property of `null` or `undefined` throws a `TypeError`;
every property read in the source happens behind a guard, and this function
is the single modelled throw point for each guarded receiver. -/
def requireNonNull : JSVal → Except String JSVal
  | .vnull => .error "TypeError: cannot read properties of null"
  | .vundefined => .error "TypeError: cannot read properties of undefined"
  | v => .ok v

/-- The JS `||` operator: the left operand if truthy, otherwise the right. -/
def jsOr (a b : JSVal) : JSVal := if jsTruthy a then a else b

/-! ### Decimal digit strings -/

/-- Numeric value of a big-endian list of decimal digit characters,
as computed by reading left to right (`10*acc + digit`). -/
def digitsToNat (cs : List Char) : ℕ :=
  cs.foldl (fun a c => 10 * a + (c.toNat - 48)) 0

/-- Little-endian decimal digits of `n`, with explicit fuel (structural
recursion; `fuel ≥ n` suffices). -/
def natDigitsRev : ℕ → ℕ → List ℕ
  | 0, _ => []
  | _, 0 => []
  | fuel + 1, n + 1 => ((n + 1) % 10) :: natDigitsRev fuel ((n + 1) / 10)

/-- Big-endian decimal digit characters of `n` (`"0"` for zero). -/
def natDigits (n : ℕ) : List Char :=
  match natDigitsRev n n with
  | [] => ['0']
  | ds => (ds.reverse).map (fun d => Char.ofNat (48 + d))

/-- Render `n / 10^k` as a decimal character string (no sign):
digits of `n` with a decimal point inserted `k` places from the right,
zero-padded on the left as needed. -/
def renderDec (n k : ℕ) : List Char :=
  let ds := natDigits n
  if k = 0 then ds
  else
    let ds' := List.replicate (k + 1 - ds.length) '0' ++ ds
    ds'.take (ds'.length - k) ++ '.' :: ds'.drop (ds'.length - k)

/-- Smallest `k ≤ fuel` with `(q * 10^k).den = 1`, if any. -/
def findDecExp (q : ℚ) : ℕ → Option ℕ
  | 0 => if (q * 10 ^ (0 : ℕ)).den = 1 then some 0 else none
  | fuel + 1 =>
    match findDecExp q fuel with
    | some k => some k
    | none => if (q * 10 ^ (fuel + 1)).den = 1 then some (fuel + 1) else none

/-- String conversion of a nonnegative finite JS number.  Every finite JS
float is `n / 10^k` for some naturals, and is printed as a plain decimal
numeral; rationals without a finite decimal expansion do not correspond to
any float and get an arbitrary placeholder. -/
def numToStringNN (q : ℚ) : List Char :=
  match findDecExp q q.den with
  | some k => renderDec (q * 10 ^ k).num.toNat k
  | none => ['?']

/-- String conversion `String(x)` of a finite JS number. -/
def numToString (q : ℚ) : List Char :=
  if q < 0 then '-' :: numToStringNN (-q) else numToStringNN q

/-- The JS string conversion `String(v)`.  Array conversion (comma-joined
stringified elements) is simplified to `""`; no claim depends on the
stringification of array-valued fields. -/
def jsToString : JSVal → List Char
  | .vundefined => "undefined".toList
  | .vnull => "null".toList
  | .vbool true => "true".toList
  | .vbool false => "false".toList
  | .vnum q => numToString q
  | .vnan => "NaN".toList
  | .vstr s => s.toList
  | .vobj _ => "[object Object]".toList
  | .varr _ => []

/-! ### Character cleanup and numeric parsing (JS `parseFloat` / `parseInt`) -/

/-- The OCR-confusable replacement performed by both sanitizers:
`/[Oo]/g → "0"` and `/[lI]/g → "1"`. -/
def ocrFix (c : Char) : Char :=
  if c = 'O' ∨ c = 'o' then '0'
  else if c = 'l' ∨ c = 'I' then '1'
  else c

/-- Character class kept by `safeMoney`: `/[^0-9.\-]/g` is stripped. -/
def isMoneyChar (c : Char) : Bool :=
  c.isDigit || c = '.' || c = '-'

/-- Character class kept by `safeIntPreserveZero`: `/[^0-9\-]/g` is stripped. -/
def isIntChar (c : Char) : Bool :=
  c.isDigit || c = '-'

/-- JS `String.prototype.trim()` on a character list. -/
def jsTrim (cs : List Char) : List Char :=
  ((cs.dropWhile Char.isWhitespace).reverse.dropWhile Char.isWhitespace).reverse

/-- JS `parseFloat` on a signless character list: a digit run, optionally
followed by `.` and a second digit run; at least one digit is required, and
parsing stops at the first character that cannot extend the literal. -/
def parseFloatUnsigned (cs : List Char) : Option ℚ :=
  let d1 := cs.takeWhile Char.isDigit
  match cs.dropWhile Char.isDigit with
  | c :: rest =>
    if c = '.' then
      let d2 := rest.takeWhile Char.isDigit
      if d1 = [] ∧ d2 = [] then none
      else some ((digitsToNat d1 : ℚ) + (digitsToNat d2 : ℚ) / 10 ^ d2.length)
    else if d1 = [] then none else some (digitsToNat d1 : ℚ)
  | [] => if d1 = [] then none else some (digitsToNat d1 : ℚ)

/-- JS `parseFloat` on a character list over the post-cleanup alphabet
`[0-9.\-]` (an optional leading minus sign, then an unsigned literal). -/
def parseFloatPrefix (cs : List Char) : Option ℚ :=
  match cs with
  | c :: rest =>
    if c = '-' then (parseFloatUnsigned rest).map Neg.neg
    else parseFloatUnsigned (c :: rest)
  | [] => parseFloatUnsigned []

/-- JS `parseInt(s, 10)` on a character list over the post-cleanup alphabet
`[0-9\-]`: an optional leading minus sign, then a nonempty digit run prefix. -/
def parseIntPrefix (cs : List Char) : Option ℤ :=
  match cs with
  | c :: rest =>
    if c = '-' then
      let d := rest.takeWhile Char.isDigit
      if d = [] then none else some (-(digitsToNat d : ℤ))
    else
      let d := (c :: rest).takeWhile Char.isDigit
      if d = [] then none else some (digitsToNat d : ℤ)
  | [] => none

/-! ### Sanitizers -/

/-- The body of `safeMoney`: OCR-confusable replacement, stripping to
`[0-9.\-]`, and `trim`. -/
def cleanMoney (cs : List Char) : List Char :=
  jsTrim ((cs.map ocrFix).filter isMoneyChar)

/-- The body of `safeIntPreserveZero`'s cleanup: OCR-confusable replacement,
stripping to `[0-9\-]`, and `trim`. -/
def cleanInt (cs : List Char) : List Char :=
  jsTrim ((cs.map ocrFix).filter isIntChar)

/-- `safeMoney(v, fallback)` from the source: `null`/`undefined` go to the
fallback, otherwise the stringified value is cleaned and fed to `parseFloat`;
the degenerate strings `""`, `"."`, `"-"`, `"-."` and an unparseable string
go to the fallback.  `none` as a result models `NaN` (the call sites use
fallback `0` or `NaN`). -/
def safeMoney (v : JSVal) (fallback : Option ℚ) : Option ℚ :=
  match v with
  | .vnull => fallback
  | .vundefined => fallback
  | _ =>
    let s := cleanMoney (jsToString v)
    if s = [] ∨ s = ['.'] ∨ s = ['-'] ∨ s = ['-', '.'] then fallback
    else match parseFloatPrefix s with
      | none => fallback
      | some n => some n

/-- `safeIntPreserveZero(v, fallback)` from the source: preserves a parsed
`0`; `null`/`undefined`, an empty cleaned string, or an unparseable string
go to the fallback. -/
def safeIntPreserveZero (v : JSVal) (fallback : ℤ) : ℤ :=
  match v with
  | .vnull => fallback
  | .vundefined => fallback
  | _ =>
    let s := cleanInt (jsToString v)
    if s = [] then fallback
    else match parseIntPrefix s with
      | none => fallback
      | some n => n

/-! ### Rounding and total comparison -/

/-- `Number.EPSILON`. -/
def jsEpsilon : ℚ := 1 / 2 ^ 52

/-- JS `Math.round`: half-up rounding, `⌊x + 1/2⌋`. -/
def jsRound (q : ℚ) : ℤ := ⌊q + 1 / 2⌋

/-- `round2(n) = Math.round((n + Number.EPSILON) * 100) / 100`. -/
def round2 (n : ℚ) : ℚ := (jsRound ((n + jsEpsilon) * 100) : ℚ) / 100

/-- `totalsMatch(computed, printed, tolerance)`: `false` when the printed
total is `null`/`undefined`/`NaN` (modelled by `none`), otherwise a
comparison of the two rounded totals.  The default tolerance is `0.05`. -/
def totalsMatch (computed : ℚ) (printed : Option ℚ) (tolerance : ℚ) : Bool :=
  match printed with
  | none => false
  | some p => decide (|round2 computed - round2 p| ≤ tolerance)

/-! ### Pattern extractors -/

/-- Scan for the first occurrence of the regex `/CS(\d{6})/`: the literal
characters `CS` followed by exactly six digits; the captured value is the
six-digit number. -/
def csScan : List Char → Option ℤ
  | [] => none
  | c :: rest =>
    match c, rest with
    | 'C', 'S' :: r2 =>
      let d := r2.take 6
      if d.length = 6 && d.all Char.isDigit then some ((digitsToNat d : ℕ) : ℤ)
      else csScan rest
    | _, _ => csScan rest

/-- `extractMasterCase(rawLine)`: `null` for a falsy argument, otherwise the
first `CS`-plus-six-digits token of the stringified argument. -/
def extractMasterCase (rawLine : JSVal) : Option ℤ :=
  if !jsTruthy rawLine then none
  else csScan (jsToString rawLine)

/-- Attempt the regex `/(\d+)\s*\/\s*(\d+)/` anchored at the current
position: a nonempty digit run, optional whitespace, `/`, optional
whitespace, a nonempty digit run; returns the first captured digit run. -/
def slashMatchAt (cs : List Char) : Option (List Char) :=
  let d1 := cs.takeWhile Char.isDigit
  if d1 = [] then none
  else
    match (cs.dropWhile Char.isDigit).dropWhile Char.isWhitespace with
    | '/' :: r2 =>
      if (r2.dropWhile Char.isWhitespace).takeWhile Char.isDigit = [] then none
      else some d1
    | _ => none

/-- Scan for the first match of `/(\d+)\s*\/\s*(\d+)/` (leftmost start). -/
def slashScan : List Char → Option (List Char)
  | [] => none
  | c :: rest =>
    match slashMatchAt (c :: rest) with
    | some d => some d
    | none => slashScan rest

/-- Substring test `hay.includes(needle)` on character lists. -/
def listStartsWith : List Char → List Char → Bool
  | [], _ => true
  | _ :: _, [] => false
  | a :: as, b :: bs => a = b && listStartsWith as bs

/-- Substring containment used for `desc.includes("6PK")` etc. -/
def strIncludes (needle : List Char) : List Char → Bool
  | [] => needle.isEmpty
  | c :: rest => listStartsWith needle (c :: rest) || strIncludes needle rest

/-! ### Vendor key and per-field normalizers -/

/-- `normalizeVendorKey(vendorName)`: stringify `vendorName || ""`, strip
`/[^a-zA-Z0-9]/g`, uppercase, trim. -/
def normalizeVendorKey (vendorName : JSVal) : List Char :=
  jsTrim (((jsToString (jsOr vendorName (.vstr ""))).filter Char.isAlphanum).map Char.toUpper)

/-- `validateUnitsPerCase(units)`: falsy (`0`), nonpositive, or above 200
fails; everything else passes. -/
def validateUnitsPerCase (units : ℤ) : Bool :=
  if units = 0 then false
  else if units ≤ 0 then false
  else if units > 200 then false
  else true

/-- `correctQtyUsingAmount({qtyOrdered, netCost, lineAmount})`: re-sanitize
the cost and amount with fallback `NaN`; a near-zero amount forces quantity
`0`; otherwise, with a positive cost, `round(amount / cost)` is accepted when
it lands in `[0, 9999]` and reproduces the amount within
`max(0.05, expectedAmt * 0.01)`; otherwise the quantity is unchanged. -/
def correctQtyUsingAmount (qtyOrdered : ℤ) (netCost lineAmount : JSVal) : ℤ :=
  let cost := safeMoney netCost none
  let amt := safeMoney lineAmount none
  match amt with
  | none => qtyOrdered
  | some a =>
    if |a| < 1 / 200 then 0
    else
      match cost with
      | none => qtyOrdered
      | some c =>
        if 0 < c then
          let inferred := jsRound (a / c)
          if 0 ≤ inferred ∧ inferred ≤ 9999 then
            let expectedAmt := (inferred : ℚ) * c
            let tolerance := max (1 / 20) (expectedAmt * (1 / 100))
            if |expectedAmt - a| ≤ tolerance then inferred else qtyOrdered
          else qtyOrdered
        else qtyOrdered

/-! ### Vendor rule engine -/

/-- A vendor rule set: the bundle of per-field normalization functions keyed
by vendor in the registry.  Each function receives the (guarded) raw item. -/
structure VendorRuleSet where
  normalizeUPC : JSVal → List Char
  normalizeSKU : JSVal → List Char
  normalizeQty : JSVal → ℤ
  normalizeNetCost : JSVal → ℚ
  normalizeLineAmount : JSVal → Option ℚ
  normalizeUnitsPerCase : JSVal → ℤ

/-- Strip the stringified value of `item[field] || ""` to digits
(`/\D/g → ""`). -/
def digitsOfField (item : JSVal) (field : String) : List Char :=
  (jsToString (jsOr (jsField item field) (.vstr ""))).filter Char.isDigit

/-- The `DEFAULT` vendor rule set. -/
def defaultRules : VendorRuleSet where
  normalizeUPC item := (digitsOfField item "upc").take 11
  normalizeSKU item := digitsOfField item "sku"
  normalizeQty item := safeIntPreserveZero (jsField item "qtyOrdered") 0
  normalizeNetCost item := (safeMoney (jsField item "netCost") (some 0)).getD 0
  normalizeLineAmount item := safeMoney (jsField item "lineAmount") none
  normalizeUnitsPerCase item :=
    let u := safeIntPreserveZero (jsField item "unitsPerCase") 0
    if validateUnitsPerCase u then u else 1

/-- The `BEVERAGE_BASE` units-per-case resolver: `X/Y` pack fraction first,
then a `CS`-encoded sub-case count greater than 1, then the `6PK`/`12PK`
heuristics when the `CS` value is exactly 1, else 1. -/
def beverageUnitsPerCase (item : JSVal) : ℤ :=
  let desc := if jsTruthy (jsField item "description")
    then (jsToString (jsField item "description")).map Char.toUpper else []
  let rawLine := if jsTruthy (jsField item "rawLine")
    then jsToString (jsField item "rawLine") else []
  let csValue := (csScan rawLine).getD 1
  match slashScan desc with
  | some d1 =>
    let x := (digitsToNat d1 : ℤ)
    if validateUnitsPerCase x then x else 1
  | none =>
    if csValue ≠ 0 ∧ csValue > 1 then
      if validateUnitsPerCase csValue then csValue else 1
    else if strIncludes "6PK".toList desc && csValue = 1 then 4
    else if strIncludes "12PK".toList desc && csValue = 1 then 2
    else 1

/-- The `BEVERAGE_BASE` vendor rule set. -/
def beverageBaseRules : VendorRuleSet where
  normalizeUPC item := (digitsOfField item "upc").take 11
  normalizeSKU item := digitsOfField item "sku"
  normalizeQty item := safeIntPreserveZero (jsField item "qtyOrdered") 0
  normalizeNetCost item := (safeMoney (jsField item "netCost") (some 0)).getD 0
  normalizeLineAmount item := safeMoney (jsField item "lineAmount") none
  normalizeUnitsPerCase := beverageUnitsPerCase

/-- `vendorRules.BONBRIGHTDISTR = { ...vendorRules.BEVERAGE_BASE }`:
a field-for-field copy of the beverage base set. -/
def bonbrightRules : VendorRuleSet := beverageBaseRules

/-- The vendor rule registry, in property insertion order. -/
def vendorRules : List (String × VendorRuleSet) :=
  [("DEFAULT", defaultRules),
   ("BEVERAGE_BASE", beverageBaseRules),
   ("BONBRIGHTDISTR", bonbrightRules)]

/-- Rule dispatch
`vendorRules[vendorKey] || vendorRules.BEVERAGE_BASE || vendorRules.DEFAULT`:
exact key, then the shared category default, then the global default (the
last tier is unreachable because `BEVERAGE_BASE` is always registered). -/
def rulesFor (vendorKey : String) : VendorRuleSet :=
  match vendorRules.lookup vendorKey with
  | some r => r
  | none =>
    match vendorRules.lookup "BEVERAGE_BASE" with
    | some r => r
    | none =>
      match vendorRules.lookup "DEFAULT" with
      | some r => r
      | none => defaultRules

/-! ### Line normalization -/

/-- A normalized line item, with the exact fields returned by the source
(`upc`, `description`, `sku` and `rawLine` keep the raw values). -/
structure NormalizedLineItem where
  upc : JSVal
  upc11 : List Char
  description : JSVal
  sku : JSVal
  skuDigits : List Char
  netCost : ℚ
  lineAmount : Option ℚ
  rawLine : JSVal
  masterCaseSize : Option ℤ
  unitsPerCase : ℤ
  qtyOrdered : ℤ
  lineTotal : ℚ
  marginWarning : Bool
  warnings : List String

/-- The guard `item && typeof item === "object" ? item : {}` applied to each
raw entry of `items`. -/
def guardItem (item : JSVal) : JSVal :=
  if jsTruthy item && jsTypeofObject item then item else .vobj []

/-- Wrap the number-or-`NaN` sanitized line amount back into a JS value for
the call to the quantity corrector. -/
def jsOfNum : Option ℚ → JSVal
  | none => .vnan
  | some q => .vnum q

/-- The body of the `parsed.items.map` callback on the guarded item `it`:
produces the normalized line record together with the unrounded `lineTotal`
the source adds to its `computedGrandTotal` accumulator. -/
def normalizeItemCore (rules : VendorRuleSet) (it : JSVal) :
    NormalizedLineItem × ℚ :=
  let masterCaseSize := extractMasterCase (jsField it "rawLine")
  let upc := rules.normalizeUPC it
  let sku := rules.normalizeSKU it
  let unitsPerCase0 := rules.normalizeUnitsPerCase it
  let unitsPerCase := if !validateUnitsPerCase unitsPerCase0 then 1 else unitsPerCase0
  let qtyOrdered0 := rules.normalizeQty it
  let netCost := rules.normalizeNetCost it
  let lineAmount := rules.normalizeLineAmount it
  let correctedQty := correctQtyUsingAmount qtyOrdered0 (.vnum netCost) (jsOfNum lineAmount)
  let qtyCorrected := correctedQty ≠ qtyOrdered0
  let qtyOrdered := correctedQty
  let lineTotal := netCost * (qtyOrdered : ℚ)
  let unitCost := if unitsPerCase > 0 then netCost / (unitsPerCase : ℚ) else 0
  let retailEstimate := unitCost * (27 / 20)
  let margin := if retailEstimate > 0
    then ((retailEstimate - unitCost) / retailEstimate) * 100 else 0
  let warnings :=
    (if upc = [] ∨ upc.length < 11 then ["UPC_MISSING_OR_SHORT"] else []) ++
    (if qtyOrdered = 0 then ["QTY_ZERO"] else []) ++
    (if qtyCorrected then ["QTY_CORRECTED_FROM_AMOUNT"] else []) ++
    (if netCost ≤ 0 then ["NETCOST_MISSING_OR_ZERO"] else [])
  (⟨jsField it "upc", upc,
    jsOr (jsField it "description") (.vstr ""),
    jsField it "sku", sku,
    round2 netCost,
    lineAmount.map round2,
    jsOr (jsField it "rawLine") (.vstr ""),
    masterCaseSize, unitsPerCase, qtyOrdered,
    round2 lineTotal,
    decide (margin < 10) || decide (margin > 80),
    warnings⟩, lineTotal)

/-- One iteration of the `parsed.items.map` callback.  In JS the member
accesses in the body throw exactly when the (guarded) item is
`null`/`undefined`; that single throw point is modelled by
`requireNonNull`, after which the body is pure. -/
def normalizeItem (rules : VendorRuleSet) (item : JSVal) :
    Except String (NormalizedLineItem × ℚ) :=
  (requireNonNull (guardItem item)).map (normalizeItemCore rules)

/-! ### Invoice normalization -/

/-- The stable output record of `normalizeParsed`.  Invoice-level
`totalMatches` and `warnings` are set by the route handler (the source adds
them as new properties after normalization); they are initialized here to
`false` and `[]`, matching `parsed.warnings || []` in the handler for a raw
response without a warnings field. -/
structure Invoice where
  vendorName : JSVal
  vendorKey : List Char
  invoiceDate : JSVal
  invoiceTotal : Option (Option ℚ)
  items : List NormalizedLineItem
  grandTotal : ℚ
  totalMatches : Bool
  warnings : List String

/-- The object guard `rawParsed && typeof rawParsed === "object" ? rawParsed : {}`. -/
def parsedOf (rawParsed : JSVal) : JSVal :=
  if jsTruthy rawParsed && jsTypeofObject rawParsed then rawParsed else .vobj []

/-- `parsed.vendorName = parsed.vendorName || ""`. -/
def vendorNameOf (rawParsed : JSVal) : JSVal :=
  jsOr (jsField (parsedOf rawParsed) "vendorName") (.vstr "")

/-- The invoice's canonical vendor key. -/
def vendorKeyOf (rawParsed : JSVal) : List Char :=
  normalizeVendorKey (vendorNameOf rawParsed)

/-- `parsed.invoiceTotal`: `null` stays `null` (`none`), any other present
value is sanitized with fallback `NaN` (`some none` models `NaN`). -/
def invoiceTotalOf (rawParsed : JSVal) : Option (Option ℚ) :=
  match jsField (parsedOf rawParsed) "invoiceTotal" with
  | .vundefined => none
  | .vnull => none
  | v => some (safeMoney v none)

/-- `parsed.invoiceDate = parsed.invoiceDate || null`. -/
def invoiceDateOf (rawParsed : JSVal) : JSVal :=
  jsOr (jsField (parsedOf rawParsed) "invoiceDate") .vnull

/-- `parsed.items = Array.isArray(parsed.items) ? parsed.items : []`. -/
def itemsOf (rawParsed : JSVal) : List JSVal :=
  match jsField (parsedOf rawParsed) "items" with
  | .varr l => l
  | _ => []

/-- `normalizeParsed(rawParsed)`: the full normalization core.  All member
accesses happen on the guarded `parsedOf rawParsed` (through the named
field helpers above); in JS they throw exactly when that receiver is
`null`/`undefined`, which `requireNonNull` models.  The items are mapped
through `normalizeItem` and the unrounded line totals are accumulated into
`grandTotal`, rounded once at the end. -/
def normalizeParsed (rawParsed : JSVal) : Except String Invoice := do
  let _ ← requireNonNull (parsedOf rawParsed)
  let rules := rulesFor (String.mk (vendorKeyOf rawParsed))
  let pairs ← (itemsOf rawParsed).mapM (normalizeItem rules)
  pure ⟨vendorNameOf rawParsed, vendorKeyOf rawParsed,
        invoiceDateOf rawParsed, invoiceTotalOf rawParsed,
        pairs.map Prod.fst,
        round2 ((pairs.map Prod.snd).sum),
        false, []⟩

/-! ### The `/api/extract` route: total reconciliation and the single retry -/

/-- The response produced by the route: a normal JSON result or an error
status (`res.status(500)` paths). -/
inductive HandlerResp where
  | ok (inv : Invoice)
  | serverError (msg : String)

/-- `parsedX.invoiceTotal === null ? NaN : safeMoney(parsedX.invoiceTotal, NaN)`:
the printed total re-read from the normalized record. -/
def printedTotalOf (invoiceTotal : Option (Option ℚ)) : Option ℚ :=
  match invoiceTotal with
  | none => none
  | some jn =>
    match jn with
    | none => safeMoney .vnan none
    | some q => safeMoney (.vnum q) none

/-- The `/api/extract` handler from the first extraction response onward.
`rawA` is the parsed first-pass response; `retry` is the outcome of the
single corrective Gemini round-trip (`.error` when the retry call or its
JSON parsing throws).  Returns the response plus the number of corrective
retries attempted. -/
def extractHandler (rawA : JSVal) (retry : Except Unit JSVal) :
    HandlerResp × ℕ :=
  match normalizeParsed rawA with
  | .error _ => (.serverError "Server crashed", 0)
  | .ok invA =>
    let printedTotalA := printedTotalOf invA.invoiceTotal
    let computedTotalA := invA.grandTotal
    let matchA := printedTotalA.isSome && totalsMatch computedTotalA printedTotalA (1 / 20)
    let invA := { invA with totalMatches := matchA, warnings := invA.warnings }
    match printedTotalA with
    | none =>
      (.ok { invA with warnings := invA.warnings ++ ["INVOICE_TOTAL_MISSING"] }, 0)
    | some _ =>
      if matchA then (.ok invA, 0)
      else
        match retry with
        | .error _ =>
          (.ok { invA with
                 warnings := invA.warnings ++
                   ["TOTAL_MISMATCH_NEEDS_REVIEW", "RETRY_FAILED"] }, 1)
        | .ok rawB =>
          match normalizeParsed rawB with
          | .error _ =>
            (.ok { invA with
                   warnings := invA.warnings ++
                     ["TOTAL_MISMATCH_NEEDS_REVIEW", "RETRY_FAILED"] }, 1)
          | .ok invB =>
            let printedTotalB := printedTotalOf invB.invoiceTotal
            let computedTotalB := invB.grandTotal
            let matchB := printedTotalB.isSome &&
              totalsMatch computedTotalB printedTotalB (1 / 20)
            let invB := { invB with totalMatches := matchB, warnings := invB.warnings }
            if matchB then (.ok invB, 1)
            else (.ok { invB with
                        warnings := invB.warnings ++ ["TOTAL_MISMATCH_NEEDS_REVIEW"] }, 1)

/-! ### Concrete inputs used by the claim witnesses and counterexamples -/

def c6item : JSVal := .vobj []

def c6rules : VendorRuleSet :=
  { beverageBaseRules with normalizeUnitsPerCase := fun _ => 300 }

def c6li : NormalizedLineItem :=
  ⟨.vundefined, [], .vstr "", .vundefined, [], 0, none, .vstr "", none, 1, 0, 0, true,
   ["UPC_MISSING_OR_SHORT", "QTY_ZERO", "NETCOST_MISSING_OR_ZERO"]⟩

def c10item : JSVal := .vobj [("netCost", .vstr "12")]

def c10li : NormalizedLineItem :=
  ⟨.vundefined, [], .vstr "", .vundefined, [], 12, none, .vstr "", none, 1, 0, 0, false,
   ["UPC_MISSING_OR_SHORT", "QTY_ZERO"]⟩

def c1item : JSVal :=
  .vobj [("qtyOrdered", .vstr "0"), ("netCost", .vstr "5"), ("lineAmount", .vstr "25")]

def c1raw : JSVal := .vobj [("items", .varr [c1item])]

def c1witem : JSVal := .vobj [("qtyOrdered", .vstr "0")]

def c1wli : NormalizedLineItem :=
  ⟨.vundefined, [], .vstr "", .vundefined, [], 0, none, .vstr "", none, 1, 0, 0, true,
   ["UPC_MISSING_OR_SHORT", "QTY_ZERO", "NETCOST_MISSING_OR_ZERO"]⟩

def c7raw : JSVal := .vobj [("items", .varr [.vobj [("qtyOrdered", .vstr "-3")]])]

def c7witem : JSVal := .vobj [("qtyOrdered", .vstr "3")]

def c7wli : NormalizedLineItem :=
  ⟨.vundefined, [], .vstr "", .vundefined, [], 0, none, .vstr "", none, 1, 3, 0, true,
   ["UPC_MISSING_OR_SHORT", "NETCOST_MISSING_OR_ZERO"]⟩

def c2raw : JSVal := .vobj
  [("items", .varr [.vobj [("qtyOrdered", .vstr "1"), ("netCost", .vstr "0.005")],
                    .vobj [("qtyOrdered", .vstr "1"), ("netCost", .vstr "0.005")]])]

def c2wraw : JSVal := .vobj
  [("items", .varr [.vobj [("qtyOrdered", .vstr "3"), ("netCost", .vstr "12")]])]

def c2wli : NormalizedLineItem :=
  ⟨.vundefined, [], .vstr "", .vundefined, [], 12, none, .vstr "", none, 1, 3, 36, false,
   ["UPC_MISSING_OR_SHORT"]⟩

def c2winv : Invoice := ⟨.vstr "", [], .vnull, none, [c2wli], 36, false, []⟩

def c4raw : JSVal := .vobj
  [("invoiceTotal", .vstr "36"),
   ("items", .varr [.vobj [("qtyOrdered", .vstr "3"), ("netCost", .vstr "12")]])]

def c4li : NormalizedLineItem :=
  ⟨.vundefined, [], .vstr "", .vundefined, [], 12, none, .vstr "", none, 1, 3, 36, false,
   ["UPC_MISSING_OR_SHORT"]⟩

def c4inv : Invoice := ⟨.vstr "", [], .vnull, some (some 36), [c4li], 36, false, []⟩

def c5raw : JSVal := .vobj
  [("invoiceTotal", .vstr "50"),
   ("items", .varr [.vobj [("qtyOrdered", .vstr "2"), ("netCost", .vstr "10")]])]

def c5li : NormalizedLineItem :=
  ⟨.vundefined, [], .vstr "", .vundefined, [], 10, none, .vstr "", none, 1, 2, 20, false,
   ["UPC_MISSING_OR_SHORT"]⟩

def c5inv : Invoice := ⟨.vstr "", [], .vnull, some (some 50), [c5li], 20, false, []⟩

/-! ## Basic facts about the guards and the item map -/

theorem guardItem_not_null (item : JSVal) :
    guardItem item ≠ .vnull ∧ guardItem item ≠ .vundefined := by
  cases item <;> simp [guardItem, jsTruthy, jsTypeofObject]

theorem requireNonNull_ok {v : JSVal} (h1 : v ≠ .vnull) (h2 : v ≠ .vundefined) :
    requireNonNull v = .ok v := by
  cases v <;> simp_all [requireNonNull]

theorem parsedOf_not_null (rawParsed : JSVal) :
    parsedOf rawParsed ≠ .vnull ∧ parsedOf rawParsed ≠ .vundefined := by
  cases rawParsed <;> simp [parsedOf, jsTruthy, jsTypeofObject]

theorem normalizeItem_eq (rules : VendorRuleSet) (item : JSVal) :
    normalizeItem rules item = .ok (normalizeItemCore rules (guardItem item)) := by
  rw [normalizeItem,
    requireNonNull_ok (guardItem_not_null item).1 (guardItem_not_null item).2]
  rfl

theorem mapM_normalizeItem_ok (rules : VendorRuleSet) (l : List JSVal) :
    l.mapM (normalizeItem rules) =
      .ok (l.map (fun item => normalizeItemCore rules (guardItem item))) := by
  induction l with
  | nil => rfl
  | cons a t ih => rw [List.mapM_cons, normalizeItem_eq, ih]; rfl

/-- The normalization core never throws: its value is the pure map of the
item normalizer over the guarded items, with the grand total rounded once. -/
theorem normalizeParsed_eq (rawParsed : JSVal) :
    normalizeParsed rawParsed =
      .ok ⟨vendorNameOf rawParsed, vendorKeyOf rawParsed,
           invoiceDateOf rawParsed, invoiceTotalOf rawParsed,
           ((itemsOf rawParsed).map (fun item =>
              normalizeItemCore (rulesFor (String.mk (vendorKeyOf rawParsed)))
                (guardItem item))).map Prod.fst,
           round2 ((((itemsOf rawParsed).map (fun item =>
              normalizeItemCore (rulesFor (String.mk (vendorKeyOf rawParsed)))
                (guardItem item))).map Prod.snd).sum),
           false, []⟩ := by
  simp only [normalizeParsed,
    requireNonNull_ok (parsedOf_not_null rawParsed).1 (parsedOf_not_null rawParsed).2,
    mapM_normalizeItem_ok, bind, Except.bind]
  rfl

/-! ## Decimal digit strings: printing and parsing agree -/

theorem digitsToNat_foldl (init : ℕ) (l : List Char) :
    l.foldl (fun a c => 10 * a + (c.toNat - 48)) init =
      init * 10 ^ l.length + digitsToNat l := by
  induction l generalizing init with
  | nil => simp [digitsToNat]
  | cons c t ih =>
    simp only [List.foldl_cons, List.length_cons, digitsToNat]
    rw [ih, ih (10 * 0 + (c.toNat - 48))]
    ring

theorem digitsToNat_append (a b : List Char) :
    digitsToNat (a ++ b) = digitsToNat a * 10 ^ b.length + digitsToNat b := by
  unfold digitsToNat
  rw [List.foldl_append, digitsToNat_foldl]
  rfl

theorem chr_digit_toNat {d : ℕ} (h : d < 10) :
    (Char.ofNat (48 + d)).toNat - 48 = d := by
  interval_cases d <;> decide

theorem chr_digit_isDigit {d : ℕ} (h : d < 10) :
    (Char.ofNat (48 + d)).isDigit = true := by
  interval_cases d <;> decide

theorem natDigitsRev_spec :
    ∀ fuel n, n ≤ fuel →
      digitsToNat ((natDigitsRev fuel n).reverse.map (fun d => Char.ofNat (48 + d))) = n ∧
      ∀ d ∈ natDigitsRev fuel n, d < 10 := by
  intro fuel
  induction fuel with
  | zero =>
    intro n hn
    interval_cases n
    exact ⟨rfl, by simp [natDigitsRev]⟩
  | succ fuel ih =>
    intro n hn
    match n with
    | 0 => exact ⟨rfl, by simp [natDigitsRev]⟩
    | m + 1 =>
      have hdiv : (m + 1) / 10 ≤ fuel :=
        le_trans (Nat.le_of_lt_succ (Nat.div_lt_self (Nat.succ_pos m) (by norm_num)))
          (Nat.le_of_succ_le_succ hn)
      obtain ⟨ihv, ihd⟩ := ih ((m + 1) / 10) hdiv
      have hmod : (m + 1) % 10 < 10 := Nat.mod_lt _ (by norm_num)
      constructor
      · show digitsToNat ((((m + 1) % 10 :: natDigitsRev fuel ((m + 1) / 10)).reverse).map
          (fun d => Char.ofNat (48 + d))) = m + 1
        rw [List.reverse_cons, List.map_append, digitsToNat_append]
        simp only [List.map_cons, List.map_nil, List.length_cons, List.length_nil]
        rw [ihv]
        show (m + 1) / 10 * 10 ^ 1 + digitsToNat [Char.ofNat (48 + (m + 1) % 10)] = m + 1
        have : digitsToNat [Char.ofNat (48 + (m + 1) % 10)] = (m + 1) % 10 := by
          unfold digitsToNat
          simp [chr_digit_toNat hmod]
        rw [this, pow_one]
        omega
      · intro d hd
        rcases List.mem_cons.mp hd with h | h
        · omega
        · exact ihd d h

theorem natDigits_spec (n : ℕ) :
    digitsToNat (natDigits n) = n ∧ natDigits n ≠ [] ∧
      ∀ c ∈ natDigits n, c.isDigit = true := by
  unfold natDigits
  rcases hds : natDigitsRev n n with _ | ⟨d, t⟩
  · obtain ⟨hv, _⟩ := natDigitsRev_spec n n le_rfl
    rw [hds] at hv
    simp only [List.reverse_nil, List.map_nil, digitsToNat] at hv
    refine ⟨?_, by simp, ?_⟩
    · simp [digitsToNat, ← hv]
    · intro c hc
      rcases List.mem_singleton.mp hc with rfl
      decide
  · obtain ⟨hv, hd⟩ := natDigitsRev_spec n n le_rfl
    rw [hds] at hv hd
    refine ⟨hv, by simp, ?_⟩
    intro c hc
    obtain ⟨d', hd', rfl⟩ := List.mem_map.mp hc
    exact chr_digit_isDigit (hd d' (List.mem_reverse.mp hd'))

theorem takeWhile_append_not {p : Char → Bool} {a : List Char} (x : Char)
    (b : List Char) (ha : ∀ c ∈ a, p c = true) (hx : p x = false) :
    (a ++ x :: b).takeWhile p = a ∧ (a ++ x :: b).dropWhile p = x :: b := by
  induction a with
  | nil => simp [List.takeWhile, List.dropWhile, hx]
  | cons c t ih =>
    have hc : p c = true := ha c (by simp)
    have ht : ∀ c ∈ t, p c = true := fun c hc' => ha c (by simp [hc'])
    obtain ⟨ih1, ih2⟩ := ih ht
    constructor
    · simp only [List.cons_append, List.takeWhile_cons, hc, if_true, ih1]
    · simp only [List.cons_append, List.dropWhile_cons, hc, if_true, ih2]

theorem takeWhile_all {p : Char → Bool} {a : List Char}
    (ha : ∀ c ∈ a, p c = true) : a.takeWhile p = a := by
  induction a with
  | nil => rfl
  | cons c t ih =>
    have hc : p c = true := ha c (by simp)
    simp only [List.takeWhile_cons, hc, if_true]
    exact congrArg _ (ih fun c hc' => ha c (by simp [hc']))

theorem digitsToNat_replicate_zero (m : ℕ) (ds : List Char) :
    digitsToNat (List.replicate m '0' ++ ds) = digitsToNat ds := by
  rw [digitsToNat_append]
  have : digitsToNat (List.replicate m '0') = 0 := by
    induction m with
    | zero => rfl
    | succ m ih =>
      rw [List.replicate_succ]
      unfold digitsToNat
      rw [List.foldl_cons, digitsToNat_foldl]
      have hz : 10 * 0 + ('0'.toNat - 48) = 0 := by decide
      rw [hz, Nat.zero_mul, Nat.zero_add]
      exact ih
  rw [this, zero_mul, zero_add]

/-- Parsing the rendered decimal recovers `n / 10^k`, and the rendered
characters are digits or a decimal point, starting with a digit. -/
theorem renderDec_parse (n k : ℕ) :
    parseFloatUnsigned (renderDec n k) = some ((n : ℚ) / 10 ^ k) ∧
      (∀ c ∈ renderDec n k, c.isDigit = true ∨ c = '.') ∧
      ∃ c rest, renderDec n k = c :: rest ∧ c.isDigit = true := by
  obtain ⟨hval, hne, hdig⟩ := natDigits_spec n
  by_cases hk : k = 0
  · subst hk
    have hrd : renderDec n 0 = natDigits n := by unfold renderDec; simp
    rw [hrd]
    refine ⟨?_, fun c hc => Or.inl (hdig c hc), ?_⟩
    · unfold parseFloatUnsigned
      rw [takeWhile_all hdig]
      have hdrop : (natDigits n).dropWhile Char.isDigit = [] := by
        rw [List.dropWhile_eq_nil_iff]
        intro c hc
        simp [hdig c hc]
      rw [hdrop]
      simp [hne, hval]
    · rcases hds : natDigits n with _ | ⟨c, rest⟩
      · exact absurd hds hne
      · exact ⟨c, rest, rfl, hdig c (by rw [hds]; simp)⟩
  · have hrd : renderDec n k =
        (List.replicate (k + 1 - (natDigits n).length) '0' ++ natDigits n).take
          ((List.replicate (k + 1 - (natDigits n).length) '0' ++ natDigits n).length - k) ++
        '.' :: (List.replicate (k + 1 - (natDigits n).length) '0' ++ natDigits n).drop
          ((List.replicate (k + 1 - (natDigits n).length) '0' ++ natDigits n).length - k) := by
      unfold renderDec
      simp [hk]
    set ds' := List.replicate (k + 1 - (natDigits n).length) '0' ++ natDigits n with hds'
    have hlen : k + 1 ≤ ds'.length := by
      rw [hds']
      simp only [List.length_append, List.length_replicate]
      have : 1 ≤ (natDigits n).length := by
        rcases hds : natDigits n with _ | _
        · exact absurd hds hne
        · simp [hds]
      omega
    have hdsdig : ∀ c ∈ ds', c.isDigit = true := by
      intro c hc
      rcases List.mem_append.mp hc with h | h
      · rw [List.eq_of_mem_replicate h]; decide
      · exact hdig c h
    set A := ds'.take (ds'.length - k) with hA
    set B := ds'.drop (ds'.length - k) with hB
    have hAB : A ++ B = ds' := List.take_append_drop _ _
    have hAdig : ∀ c ∈ A, c.isDigit = true := fun c hc =>
      hdsdig c (List.mem_of_mem_take hc)
    have hBdig : ∀ c ∈ B, c.isDigit = true := fun c hc =>
      hdsdig c (List.mem_of_mem_drop hc)
    have hBlen : B.length = k := by
      rw [hB, List.length_drop]
      omega
    have hAlen : 1 ≤ A.length := by
      rw [hA, List.length_take]
      omega
    have hdsval : digitsToNat ds' = n := by
      rw [hds', digitsToNat_replicate_zero, hval]
    have hsplit : digitsToNat A * 10 ^ k + digitsToNat B = n := by
      rw [← hBlen, ← digitsToNat_append, hAB, hdsval]
    rw [hrd]
    have hdot : Char.isDigit '.' = false := by decide
    obtain ⟨htake, hdrop⟩ := takeWhile_append_not '.' B hAdig hdot
    refine ⟨?_, ?_, ?_⟩
    · unfold parseFloatUnsigned
      rw [htake, hdrop]
      simp only [if_pos rfl]
      rw [takeWhile_all hBdig]
      have hAne : A ≠ [] := by
        rcases A with _ | _
        · simp at hAlen
        · simp
      simp only [hAne, false_and, if_false, hBlen]
      have h10 : (10 : ℚ) ^ k ≠ 0 := by positivity
      field_simp
      push_cast [← hsplit]
      ring
    · intro c hc
      rcases List.mem_append.mp hc with h | h
      · exact Or.inl (hAdig c h)
      · rcases List.mem_cons.mp h with rfl | h
        · exact Or.inr rfl
        · exact Or.inl (hBdig c h)
    · rcases hAeq : A with _ | ⟨c, rest⟩
      · rw [hAeq] at hAlen; simp at hAlen
      · exact ⟨c, rest ++ '.' :: B, by simp, hAdig c (by rw [hAeq]; simp)⟩

/-! ## Decimal rationals: `findDecExp` and the roundtrip through `String` -/

theorem findDecExp_sound {q : ℚ} :
    ∀ {fuel k : ℕ}, findDecExp q fuel = some k → (q * 10 ^ k).den = 1 := by
  intro fuel
  induction fuel with
  | zero =>
    intro k h
    unfold findDecExp at h
    split at h
    · cases h; assumption
    · cases h
  | succ fuel ih =>
    intro k h
    unfold findDecExp at h
    rcases hf : findDecExp q fuel with _ | k'
    · rw [hf] at h
      dsimp only at h
      split at h
      · cases h; assumption
      · cases h
    · rw [hf] at h
      dsimp only at h
      injection h with h'
      subst h'
      exact ih hf

theorem findDecExp_complete {q : ℚ} :
    ∀ {fuel : ℕ}, (∃ k ≤ fuel, (q * 10 ^ k).den = 1) →
      ∃ k', findDecExp q fuel = some k' := by
  intro fuel
  induction fuel with
  | zero =>
    rintro ⟨k, hk, hden⟩
    interval_cases k
    exact ⟨0, by unfold findDecExp; rw [if_pos hden]⟩
  | succ fuel ih =>
    rintro ⟨k, hk, hden⟩
    unfold findDecExp
    rcases hf : findDecExp q fuel with _ | k'
    · rcases Nat.lt_or_ge k (fuel + 1) with hlt | hge
      · obtain ⟨k', hk'⟩ := ih ⟨k, Nat.le_of_lt_succ hlt, hden⟩
        rw [hf] at hk'
        cases hk'
      · have : k = fuel + 1 := le_antisymm hk hge
        subst this
        exact ⟨fuel + 1, by rw [if_pos hden]⟩
    · exact ⟨k', rfl⟩

theorem dvd_ten_pow_self {d j : ℕ} (h : d ∣ 10 ^ j) : d ∣ 10 ^ d := by
  have h25 : d ∣ 2 ^ j * 5 ^ j := by
    rw [← Nat.mul_pow]
    exact h
  obtain ⟨a, b, ha, hb, hab⟩ := (Nat.dvd_mul).mp h25
  obtain ⟨i, hij, rfl⟩ := (Nat.dvd_prime_pow Nat.prime_two).mp ha
  obtain ⟨i', hij', rfl⟩ := (Nat.dvd_prime_pow (by norm_num : Nat.Prime 5)).mp hb
  subst hab
  have h2pos : 0 < 2 ^ i := pow_pos (by norm_num) i
  have h5pos : 0 < 5 ^ i' := pow_pos (by norm_num) i'
  have hi : i ≤ 2 ^ i * 5 ^ i' := by
    have := Nat.lt_two_pow i
    calc i ≤ 2 ^ i := Nat.le_of_lt this
    _ ≤ 2 ^ i * 5 ^ i' := Nat.le_mul_of_pos_right _ h5pos
  have hi' : i' ≤ 2 ^ i * 5 ^ i' := by
    have h5 : i' < 5 ^ i' := Nat.lt_pow_self (by norm_num) i'
    calc i' ≤ 5 ^ i' := Nat.le_of_lt h5
    _ ≤ 2 ^ i * 5 ^ i' := Nat.le_mul_of_pos_left _ h2pos
  calc 2 ^ i * 5 ^ i' ∣ 2 ^ (2 ^ i * 5 ^ i') * 5 ^ (2 ^ i * 5 ^ i') :=
        mul_dvd_mul (pow_dvd_pow 2 hi) (pow_dvd_pow 5 hi')
    _ = 10 ^ (2 ^ i * 5 ^ i') := by rw [← Nat.mul_pow]

theorem den_mul_pow_eq_one {q : ℚ} {k : ℕ} (h : (q.den : ℕ) ∣ 10 ^ k) :
    (q * 10 ^ k).den = 1 := by
  obtain ⟨c, hc⟩ := h
  have hden : (q.den : ℚ) ≠ 0 := by
    exact_mod_cast q.den_nz
  have hq : q * (q.den : ℚ) = (q.num : ℚ) := by
    nth_rewrite 1 [← Rat.num_div_den q]
    exact div_mul_cancel₀ _ hden
  have h1 : (10 : ℚ) ^ k = ((q.den * c : ℕ) : ℚ) := by
    rw [← hc]
    push_cast
    ring
  have h2 : q * 10 ^ k = ((q.num * c : ℤ) : ℚ) := by
    rw [h1]
    push_cast
    rw [← mul_assoc, hq]
  rw [h2, Rat.den_intCast]

/-- A rational of the form `m / 10^j` admits a decimal exponent bounded by
its reduced denominator. -/
theorem isDec_bounded {q : ℚ} (h : ∃ (m : ℤ) (j : ℕ), q = m / 10 ^ j) :
    ∃ k ≤ q.den, (q * 10 ^ k).den = 1 := by
  obtain ⟨m, j, rfl⟩ := h
  have hq : (m : ℚ) / 10 ^ j = Rat.divInt m (10 ^ j) := by
    rw [Rat.divInt_eq_div]
    push_cast
    ring
  have hdvd : (((m : ℚ) / 10 ^ j).den : ℤ) ∣ (10 : ℤ) ^ j := by
    rw [hq]
    exact Rat.den_dvd m _
  have hdvd' : ((m : ℚ) / 10 ^ j).den ∣ 10 ^ j := by
    have hcast : ((10 : ℤ) ^ j) = ((10 ^ j : ℕ) : ℤ) := by push_cast; ring
    rw [hcast, Int.natCast_dvd_natCast] at hdvd
    exact hdvd
  exact ⟨((m : ℚ) / 10 ^ j).den, le_rfl, den_mul_pow_eq_one (dvd_ten_pow_self hdvd')⟩

/-- Parsing the printed form of a nonnegative decimal rational recovers it. -/
theorem numToStringNN_spec {q : ℚ} (h0 : 0 ≤ q)
    (hdec : ∃ (m : ℤ) (j : ℕ), q = m / 10 ^ j) :
    parseFloatUnsigned (numToStringNN q) = some q ∧
      (∀ c ∈ numToStringNN q, c.isDigit = true ∨ c = '.') ∧
      ∃ c rest, numToStringNN q = c :: rest ∧ c.isDigit = true := by
  obtain ⟨k', hk'⟩ := findDecExp_complete (isDec_bounded hdec)
  have hden1 : (q * 10 ^ k').den = 1 := findDecExp_sound hk'
  have hint : ((q * 10 ^ k').num : ℚ) = q * 10 ^ k' := (Rat.den_eq_one_iff _).mp hden1
  have hnum0 : 0 ≤ (q * 10 ^ k').num := by
    rw [Rat.num_nonneg]
    positivity
  have hcast : (((q * 10 ^ k').num.toNat : ℕ) : ℚ) = ((q * 10 ^ k').num : ℚ) := by
    exact_mod_cast Int.toNat_of_nonneg hnum0
  have hq : ((q * 10 ^ k').num.toNat : ℚ) / 10 ^ k' = q := by
    rw [hcast, hint]
    field_simp
  have hout : numToStringNN q = renderDec (q * 10 ^ k').num.toNat k' := by
    unfold numToStringNN
    rw [hk']
  obtain ⟨hp, hchars, hhead⟩ := renderDec_parse (q * 10 ^ k').num.toNat k'
  rw [hout, hp, hq]
  exact ⟨rfl, hchars, hhead⟩

theorem digit_ocrFix {c : Char} (h : c.isDigit = true) : ocrFix c = c := by
  unfold ocrFix
  split
  · rename_i hc
    rcases hc with rfl | rfl <;> simp at h
  · split
    · rename_i hc
      rcases hc with rfl | rfl <;> simp at h
    · rfl

theorem digit_not_ws {c : Char} (h : c.isDigit = true) : c.isWhitespace = false := by
  rcases hw : c.isWhitespace with _ | _
  · rfl
  · exfalso
    have : c = ' ' ∨ c = '\t' ∨ c = '\r' ∨ c = '\n' := by
      simpa [Char.isWhitespace, or_assoc] using hw
    rcases this with rfl | rfl | rfl | rfl <;> simp at h

theorem digit_ne_dot {c : Char} (h : c.isDigit = true) : c ≠ '.' := by
  rintro rfl; simp at h

theorem digit_ne_dash {c : Char} (h : c.isDigit = true) : c ≠ '-' := by
  rintro rfl; simp at h

theorem dropWhile_ws_eq_self {l : List Char}
    (h : ∀ c ∈ l, c.isWhitespace = false) : l.dropWhile Char.isWhitespace = l := by
  cases l with
  | nil => rfl
  | cons c t =>
    rw [List.dropWhile_cons, h c (by simp)]
    simp

theorem jsTrim_eq_self {l : List Char}
    (h : ∀ c ∈ l, c.isWhitespace = false) : jsTrim l = l := by
  unfold jsTrim
  rw [dropWhile_ws_eq_self h,
    dropWhile_ws_eq_self (fun c hc => h c (List.mem_reverse.mp hc)),
    List.reverse_reverse]

/-- Cleanup is the identity on strings over the money alphabet. -/
theorem cleanMoney_eq_self {l : List Char}
    (h : ∀ c ∈ l, c.isDigit = true ∨ c = '.' ∨ c = '-') : cleanMoney l = l := by
  unfold cleanMoney
  have hmap : l.map ocrFix = l := by
    induction l with
    | nil => rfl
    | cons c t ih =>
      rw [List.map_cons, ih (fun x hx => h x (by simp [hx]))]
      have : ocrFix c = c := by
        rcases h c (by simp) with hd | rfl | rfl
        · exact digit_ocrFix hd
        · rfl
        · rfl
      rw [this]
  rw [hmap]
  have hfil : l.filter isMoneyChar = l := by
    apply List.filter_eq_self.mpr
    intro c hc
    rcases h c hc with hd | rfl | rfl
    · simp [isMoneyChar, hd]
    · simp [isMoneyChar]
    · simp [isMoneyChar]
  rw [hfil]
  apply jsTrim_eq_self
  intro c hc
  rcases h c hc with hd | rfl | rfl
  · exact digit_not_ws hd
  · rfl
  · rfl

/-- `safeMoney` applied to a finite decimal number recovers it: the number
prints as a plain decimal numeral, survives the character cleanup, and
parses back to itself. -/
theorem safeMoney_roundtrip {q : ℚ} (hdec : ∃ (m : ℤ) (j : ℕ), q = m / 10 ^ j) :
    safeMoney (.vnum q) none = some q := by
  rcases lt_or_le q 0 with hneg | h0
  · obtain ⟨m, j, hm⟩ := hdec
    have hdec' : ∃ (m' : ℤ) (j' : ℕ), -q = m' / 10 ^ j' :=
      ⟨-m, j, by rw [hm]; push_cast; ring⟩
    obtain ⟨hp, hchars, c, rest, hcr, hcd⟩ := numToStringNN_spec (by linarith) hdec'
    have hs : jsToString (.vnum q) = '-' :: numToStringNN (-q) := by
      show numToString q = _
      unfold numToString
      rw [if_pos hneg]
    unfold safeMoney
    rw [hs]
    have hclean : cleanMoney ('-' :: numToStringNN (-q)) = '-' :: numToStringNN (-q) := by
      apply cleanMoney_eq_self
      intro x hx
      rcases List.mem_cons.mp hx with rfl | hx'
      · exact Or.inr (Or.inr rfl)
      · rcases hchars x hx' with hd | rfl
        · exact Or.inl hd
        · exact Or.inr (Or.inl rfl)
    rw [hclean]
    have hdeg : ¬('-' :: numToStringNN (-q) = [] ∨ '-' :: numToStringNN (-q) = ['.'] ∨
        '-' :: numToStringNN (-q) = ['-'] ∨ '-' :: numToStringNN (-q) = ['-', '.']) := by
      rw [hcr]
      push_neg
      refine ⟨by simp, by simp, by simp, ?_⟩
      intro hcontra
      have : c = '.' := by
        have := congrArg List.tail hcontra
        simpa using congrArg (fun l => l.headD ' ') this
      exact digit_ne_dot hcd this
    rw [if_neg hdeg]
    show (match parseFloatPrefix ('-' :: numToStringNN (-q)) with
      | none => none
      | some n => some n) = some q
    unfold parseFloatPrefix
    dsimp only
    rw [if_pos rfl, hp]
    show some (-(-q)) = some q
    rw [neg_neg]
  · obtain ⟨hp, hchars, c, rest, hcr, hcd⟩ := numToStringNN_spec h0 hdec
    have hs : jsToString (.vnum q) = numToStringNN q := by
      show numToString q = _
      unfold numToString
      rw [if_neg (not_lt.mpr h0)]
    unfold safeMoney
    rw [hs]
    have hclean : cleanMoney (numToStringNN q) = numToStringNN q := by
      apply cleanMoney_eq_self
      intro x hx
      rcases hchars x hx with hd | rfl
      · exact Or.inl hd
      · exact Or.inr (Or.inl rfl)
    rw [hclean]
    have hdeg : ¬(numToStringNN q = [] ∨ numToStringNN q = ['.'] ∨
        numToStringNN q = ['-'] ∨ numToStringNN q = ['-', '.']) := by
      rw [hcr]
      push_neg
      refine ⟨by simp, ?_, ?_, ?_⟩ <;>
        · intro hcontra
          have hc' := congrArg (fun l => l.headD ' ') hcontra
          simp at hc'
          first
          | exact digit_ne_dot hcd hc'
          | exact digit_ne_dash hcd hc'
    rw [if_neg hdeg]
    rw [hcr]
    show (match parseFloatPrefix (c :: rest) with
      | none => none
      | some n => some n) = some q
    unfold parseFloatPrefix
    dsimp only
    rw [if_neg (digit_ne_dash hcd), ← hcr, hp]

theorem dec_add_frac (d1 d2 : ℕ) (l : ℕ) :
    (d1 : ℚ) + (d2 : ℚ) / 10 ^ l = ((d1 * 10 ^ l + d2 : ℤ) : ℚ) / 10 ^ l := by
  have h10 : ((10 : ℚ)) ^ l ≠ 0 := by positivity
  push_cast
  field_simp

theorem parseFloatUnsigned_isDec {cs : List Char} {a : ℚ}
    (h : parseFloatUnsigned cs = some a) : ∃ (m : ℤ) (j : ℕ), a = m / 10 ^ j := by
  unfold parseFloatUnsigned at h
  dsimp only at h
  split at h
  · rename_i x c rest heq
    split at h
    · split at h
      · cases h
      · injection h with h'
        refine ⟨(digitsToNat (cs.takeWhile Char.isDigit) : ℤ) *
            10 ^ (rest.takeWhile Char.isDigit).length +
            (digitsToNat (rest.takeWhile Char.isDigit) : ℤ),
          (rest.takeWhile Char.isDigit).length, ?_⟩
        rw [← h', dec_add_frac]
    · split at h
      · cases h
      · injection h with h'
        exact ⟨digitsToNat (cs.takeWhile Char.isDigit), 0, by rw [← h']; simp⟩
  · split at h
    · cases h
    · injection h with h'
      exact ⟨digitsToNat (cs.takeWhile Char.isDigit), 0, by rw [← h']; simp⟩

theorem parseFloatPrefix_isDec {cs : List Char} {a : ℚ}
    (h : parseFloatPrefix cs = some a) : ∃ (m : ℤ) (j : ℕ), a = m / 10 ^ j := by
  unfold parseFloatPrefix at h
  split at h
  · split at h
    · rcases hu : parseFloatUnsigned _ with _ | b
      · rw [hu] at h; cases h
      · rw [hu] at h
        injection h with h'
        obtain ⟨m, j, hm⟩ := parseFloatUnsigned_isDec hu
        exact ⟨-m, j, by rw [← h', hm]; push_cast; ring⟩
    · exact parseFloatUnsigned_isDec h
  · exact parseFloatUnsigned_isDec h

theorem safeMoneyTail_isDec {s : List Char} {a : ℚ}
    (h : (if s = [] ∨ s = ['.'] ∨ s = ['-'] ∨ s = ['-', '.'] then none
          else match parseFloatPrefix s with
            | none => none
            | some n => some n) = some a) :
    ∃ (m : ℤ) (j : ℕ), a = m / 10 ^ j := by
  split at h
  · cases h
  · rcases hp : parseFloatPrefix s with _ | n
    · rw [hp] at h; cases h
    · rw [hp] at h
      injection h with h'
      subst h'
      exact parseFloatPrefix_isDec hp

/-- Every number produced by `safeMoney` is a finite decimal. -/
theorem safeMoney_isDec {v : JSVal} {a : ℚ} (h : safeMoney v none = some a) :
    ∃ (m : ℤ) (j : ℕ), a = m / 10 ^ j := by
  unfold safeMoney at h
  cases v <;> dsimp only at h <;>
    first
    | exact safeMoneyTail_isDec h
    | exact absurd h (by simp)

/-! ## Rounding lemmas -/

theorem round2_grid (x : ℚ) : ∃ m : ℤ, round2 x = (m : ℚ) / 100 :=
  ⟨jsRound ((x + jsEpsilon) * 100), rfl⟩

theorem jsEpsilon_pos : 0 < jsEpsilon := by norm_num [jsEpsilon]

/-- `round2` is the identity on exact hundredths. -/
theorem round2_int_div (m : ℤ) : round2 ((m : ℚ) / 100) = (m : ℚ) / 100 := by
  unfold round2 jsRound
  have harg : ((m : ℚ) / 100 + jsEpsilon) * 100 + 1 / 2 =
      (m : ℚ) + (100 * jsEpsilon + 1 / 2) := by ring
  rw [harg]
  have hfl : ⌊(m : ℚ) + (100 * jsEpsilon + 1 / 2)⌋ = m := by
    rw [Int.floor_eq_iff]
    constructor
    · norm_num [jsEpsilon]
    · norm_num [jsEpsilon]
  rw [hfl]

theorem abs_round2_sub_le (p : ℚ) : |round2 p - p| ≤ 1 / 200 + jsEpsilon := by
  unfold round2 jsRound
  have h1 : (⌊(p + jsEpsilon) * 100 + 1 / 2⌋ : ℚ) ≤ (p + jsEpsilon) * 100 + 1 / 2 :=
    Int.floor_le _
  have h2 : (p + jsEpsilon) * 100 + 1 / 2 < ⌊(p + jsEpsilon) * 100 + 1 / 2⌋ + 1 :=
    Int.lt_floor_add_one _
  have heps : 0 < jsEpsilon := jsEpsilon_pos
  rw [abs_le]
  constructor
  · linarith
  · linarith

/-- If the computed total is already rounded and lies within `0.05` of the
printed total, the rounded comparison inside `totalsMatch` cannot fail:
both sides are exact hundredths, so their distance, being strictly less
than `0.06`, is at most `0.05`. -/
theorem totalsMatch_of_close {S p : ℚ} (h : |round2 S - p| ≤ 1 / 20) :
    totalsMatch (round2 S) (some p) (1 / 20) = true := by
  obtain ⟨a, ha⟩ := round2_grid S
  obtain ⟨b, hb⟩ := round2_grid p
  have heps : 0 < jsEpsilon := jsEpsilon_pos
  have hup : |round2 p - p| ≤ 1 / 200 + jsEpsilon := abs_round2_sub_le p
  have hd : |(a : ℚ) / 100 - b / 100| ≤ 1 / 20 + (1 / 200 + jsEpsilon) := by
    calc |(a : ℚ) / 100 - b / 100| ≤ |(a : ℚ) / 100 - p| + |p - (b : ℚ) / 100| :=
          abs_sub_le _ p _
      _ ≤ 1 / 20 + (1 / 200 + jsEpsilon) := by
          rw [← ha, ← hb, abs_sub_comm p (round2 p)]
          exact add_le_add h hup
  have habq : |(a : ℚ) - b| < 6 := by
    have : |(a : ℚ) - b| = 100 * |(a : ℚ) / 100 - b / 100| := by
      rw [show (a : ℚ) / 100 - b / 100 = ((a : ℚ) - b) / 100 by ring, abs_div]
      norm_num
      ring
    rw [this]
    calc 100 * |(a : ℚ) / 100 - b / 100| ≤ 100 * (1 / 20 + (1 / 200 + jsEpsilon)) := by
          linarith
      _ < 6 := by norm_num [jsEpsilon]
  have habz : |a - b| ≤ 5 := by
    have : |a - b| < 6 := by exact_mod_cast (by push_cast; exact habq : |((a - b : ℤ) : ℚ)| < 6)
    omega
  have hfin : |round2 (round2 S) - round2 p| ≤ 1 / 20 := by
    rw [ha, round2_int_div, hb]
    rw [show (a : ℚ) / 100 - b / 100 = ((a - b : ℤ) : ℚ) / 100 by push_cast; ring, abs_div]
    rw [abs_of_nonneg (by norm_num : (0 : ℚ) ≤ 100)]
    rw [div_le_iff₀ (by norm_num : (0 : ℚ) < 100)]
    calc |((a - b : ℤ) : ℚ)| ≤ 5 := by exact_mod_cast habz
      _ ≤ 1 / 20 * 100 := by norm_num
  unfold totalsMatch
  rw [decide_eq_true_eq]
  exact hfin

/-- Re-reading the already-sanitized printed total returns it unchanged. -/
theorem printedTotalOf_roundtrip {q : ℚ} (hdec : ∃ (m : ℤ) (j : ℕ), q = m / 10 ^ j) :
    printedTotalOf (some (some q)) = some q := by
  show safeMoney (.vnum q) none = some q
  exact safeMoney_roundtrip hdec

/-- Every parsed printed total is a finite decimal. -/
theorem invoiceTotalOf_isDec {rawParsed : JSVal} {q : ℚ}
    (h : invoiceTotalOf rawParsed = some (some q)) :
    ∃ (m : ℤ) (j : ℕ), q = m / 10 ^ j := by
  unfold invoiceTotalOf at h
  split at h
  · cases h
  · cases h
  · injection h with h'
    exact safeMoney_isDec h'

/-! ## Quantity corrector and integer sanitizer lemmas -/

theorem correctQty_of_amt_none {qty : ℤ} {netCost lineAmount : JSVal}
    (h : safeMoney lineAmount none = none) :
    correctQtyUsingAmount qty netCost lineAmount = qty := by
  unfold correctQtyUsingAmount
  dsimp only
  rw [h]

theorem safeMoney_vnan : safeMoney .vnan none = none := rfl

theorem correctQty_nonneg {qty : ℤ} {netCost lineAmount : JSVal}
    (h : 0 ≤ qty) : 0 ≤ correctQtyUsingAmount qty netCost lineAmount := by
  unfold correctQtyUsingAmount
  dsimp only
  split
  · exact h
  · split
    · omega
    · split
      · exact h
      · split
        · split
          · split
            · rename_i hrange _
              exact hrange.1
            · exact h
          · exact h
        · exact h

theorem ocrFix_eq_dash {c : Char} (h : ocrFix c = '-') : c = '-' := by
  unfold ocrFix at h
  split at h
  · cases h
  · split at h
    · cases h
    · exact h

theorem mem_jsTrim {c : Char} {l : List Char} (h : c ∈ jsTrim l) : c ∈ l := by
  unfold jsTrim at h
  have h1 := List.mem_reverse.mp h
  have h2 := List.dropWhile_sublist (l := (l.dropWhile Char.isWhitespace).reverse)
    (p := Char.isWhitespace)
  have h3 : c ∈ (l.dropWhile Char.isWhitespace).reverse := h2.mem h1
  have h4 := List.mem_reverse.mp h3
  exact (List.dropWhile_sublist (l := l) (p := Char.isWhitespace)).mem h4

theorem cleanInt_no_dash {v : JSVal} (h : '-' ∉ jsToString v) :
    '-' ∉ cleanInt (jsToString v) := by
  intro hmem
  unfold cleanInt at hmem
  have h1 := mem_jsTrim hmem
  have h2 := List.mem_of_mem_filter h1
  obtain ⟨c, hc, hfix⟩ := List.mem_map.mp h2
  exact h (ocrFix_eq_dash hfix ▸ hc)

theorem parseIntPrefix_nonneg {s : List Char} {n : ℤ}
    (hnd : '-' ∉ s) (h : parseIntPrefix s = some n) : 0 ≤ n := by
  unfold parseIntPrefix at h
  dsimp only at h
  split at h
  · rename_i c rest
    split at h
    · rename_i hc
      subst hc
      exact absurd (by simp : '-' ∈ '-' :: rest) hnd
    · split at h
      · cases h
      · injection h with h'
        subst h'
        positivity
  · cases h

/-- If the raw field's stringification carries no minus sign, the integer
sanitizer cannot produce a negative value. -/
theorem safeIntPreserveZero_nonneg {v : JSVal}
    (h : '-' ∉ jsToString v) : 0 ≤ safeIntPreserveZero v 0 := by
  unfold safeIntPreserveZero
  cases v <;> dsimp only <;> try norm_num
  all_goals
    split
    · norm_num
    · split
      · norm_num
      · rename_i v' hs hp
        exact parseIntPrefix_nonneg (cleanInt_no_dash h) hp

/-! ## Projections of the normalized line record -/

theorem core_unitsPerCase (rules : VendorRuleSet) (it : JSVal) :
    (normalizeItemCore rules it).1.unitsPerCase =
      (if !validateUnitsPerCase (rules.normalizeUnitsPerCase it) then 1
       else rules.normalizeUnitsPerCase it) := rfl

theorem core_qtyOrdered (rules : VendorRuleSet) (it : JSVal) :
    (normalizeItemCore rules it).1.qtyOrdered =
      correctQtyUsingAmount (rules.normalizeQty it) (.vnum (rules.normalizeNetCost it))
        (jsOfNum (rules.normalizeLineAmount it)) := rfl

theorem core_lineTotal (rules : VendorRuleSet) (it : JSVal) :
    (normalizeItemCore rules it).1.lineTotal = round2 (normalizeItemCore rules it).2 := rfl

theorem core_snd (rules : VendorRuleSet) (it : JSVal) :
    (normalizeItemCore rules it).2 =
      (rules.normalizeNetCost it) * ((normalizeItemCore rules it).1.qtyOrdered : ℚ) := rfl

theorem core_marginWarning (rules : VendorRuleSet) (it : JSVal) :
    (normalizeItemCore rules it).1.marginWarning =
      (let unitsPerCase := if !validateUnitsPerCase (rules.normalizeUnitsPerCase it) then 1
         else rules.normalizeUnitsPerCase it
       let unitCost := if unitsPerCase > 0
         then rules.normalizeNetCost it / (unitsPerCase : ℚ) else 0
       let retailEstimate := unitCost * (27 / 20)
       let margin := if retailEstimate > 0
         then ((retailEstimate - unitCost) / retailEstimate) * 100 else 0
       decide (margin < 10) || decide (margin > 80)) := rfl

theorem validate_true_iff (u : ℤ) :
    validateUnitsPerCase u = true ↔ 0 < u ∧ u ≤ 200 := by
  unfold validateUnitsPerCase
  split_ifs with h1 h2 h3 <;> constructor <;> intro h <;> first | rfl | omega | cases h

/-! ## The vendor rule registry -/

theorem rulesFor_lookup_some {k : String} {r : VendorRuleSet}
    (h : vendorRules.lookup k = some r) : rulesFor k = r := by
  unfold rulesFor
  rw [h]

theorem rulesFor_lookup_none {k : String}
    (h : vendorRules.lookup k = none) : rulesFor k = beverageBaseRules := by
  unfold rulesFor
  rw [h]
  rfl

/-! ## Shared helper facts for the claims -/

theorem core_units_bounds (rules : VendorRuleSet) (it : JSVal) :
    0 < (normalizeItemCore rules it).1.unitsPerCase ∧
      (normalizeItemCore rules it).1.unitsPerCase ≤ 200 := by
  rw [core_unitsPerCase]
  rcases hv : validateUnitsPerCase (rules.normalizeUnitsPerCase it) with _ | _
  · simp only [hv, Bool.not_false, if_true]
    omega
  · simp only [hv, Bool.not_true, if_false]
    exact (validate_true_iff _).mp hv

/-! ## Claims -/

/-- C8: the normalization core is total: for every input value — a
non-object, missing `vendorName`/`invoiceDate`/`invoiceTotal`/`items`, an
items entry that is not an object, or any malformed line field —
`normalizeParsed` returns a normal result and never reaches a throw
point. -/
theorem C8_normalizeParsed_total : ∀ rawParsed : JSVal,
    (normalizeParsed rawParsed).isOk = true := by
  intro rawParsed
  rw [normalizeParsed_eq]
  rfl

/-- C9: vendor rule lookup follows the declared order: an exact `vendorKey`
match is used when registered, otherwise the shared category default
`BEVERAGE_BASE` (always registered, as is the global default `DEFAULT`);
in particular every unregistered vendor key resolves to the shared
default rule set rather than failing. -/
theorem C9_vendor_lookup :
    (∀ (k : String) (r : VendorRuleSet), vendorRules.lookup k = some r → rulesFor k = r) ∧
    (∀ k : String, vendorRules.lookup k = none → rulesFor k = beverageBaseRules) ∧
    vendorRules.lookup "BEVERAGE_BASE" = some beverageBaseRules ∧
    vendorRules.lookup "DEFAULT" = some defaultRules ∧
    vendorRules.lookup "BONBRIGHTDISTR" = some bonbrightRules :=
  ⟨fun _ _ h => rulesFor_lookup_some h,
   fun _ h => rulesFor_lookup_none h,
   rfl, rfl, rfl⟩

theorem C9_witness :
    rulesFor "SOMEOTHERVENDOR" = beverageBaseRules ∧
    rulesFor "BONBRIGHTDISTR" = bonbrightRules :=
  ⟨C9_vendor_lookup.2.1 "SOMEOTHERVENDOR" rfl,
   C9_vendor_lookup.1 "BONBRIGHTDISTR" bonbrightRules rfl⟩

/-- C6: for every normalized line item, `unitsPerCase` is an integer in
`(0, 200]`, and whenever the rule set's derived value fails
`validateUnitsPerCase` the line is not rejected — `unitsPerCase` resolves
to `1`. -/
theorem C6_unitsPerCase_valid :
    (∀ (rules : VendorRuleSet) (item : JSVal) (li : NormalizedLineItem) (lt : ℚ),
      normalizeItem rules item = .ok (li, lt) →
        (0 < li.unitsPerCase ∧ li.unitsPerCase ≤ 200) ∧
        (validateUnitsPerCase (rules.normalizeUnitsPerCase (guardItem item)) = false →
          li.unitsPerCase = 1)) ∧
    (∀ (rawParsed : JSVal) (inv : Invoice), normalizeParsed rawParsed = .ok inv →
      ∀ li ∈ inv.items, 0 < li.unitsPerCase ∧ li.unitsPerCase ≤ 200) := by
  constructor
  · intro rules item li lt h
    rw [normalizeItem_eq] at h
    injection h with h'
    have hli : li = (normalizeItemCore rules (guardItem item)).1 := by rw [h']
    subst hli
    refine ⟨core_units_bounds rules (guardItem item), ?_⟩
    intro hf
    rw [core_unitsPerCase, hf]
    rfl
  · intro rawParsed inv h li hmem
    rw [normalizeParsed_eq] at h
    injection h with h'
    subst h'
    simp only [List.map_map, List.mem_map] at hmem
    obtain ⟨item, _, hitem⟩ := hmem
    rw [← hitem]
    exact core_units_bounds _ _

unseal Rat.mul Rat.inv Rat.add Rat.sub in
theorem C6_witness : c6li.unitsPerCase = 1 ∧ 0 < c6li.unitsPerCase ∧ c6li.unitsPerCase ≤ 200 :=
  ⟨((C6_unitsPerCase_valid.1 c6rules c6item c6li 0 rfl).2 rfl),
   (C6_unitsPerCase_valid.1 c6rules c6item c6li 0 rfl).1⟩

/-- C10: for every normalized line item, `marginWarning` holds exactly when
the sanitized net cost is zero or negative: with `unitsPerCase ≥ 1`, a
positive net cost always yields the constant margin `700/27 ≈ 25.93`,
strictly inside `[10, 80]`, so the heuristic can never fire for a positive
cost. -/
theorem C10_marginWarning_iff :
    ∀ (rules : VendorRuleSet) (item : JSVal) (li : NormalizedLineItem) (lt : ℚ),
      normalizeItem rules item = .ok (li, lt) →
      (li.marginWarning = true ↔ rules.normalizeNetCost (guardItem item) ≤ 0) := by
  intro rules item li lt h
  rw [normalizeItem_eq] at h
  injection h with h'
  have hli : li = (normalizeItemCore rules (guardItem item)).1 := by rw [h']
  subst hli
  rw [core_marginWarning]
  dsimp only
  set u0 := rules.normalizeUnitsPerCase (guardItem item) with hu0
  set nc := rules.normalizeNetCost (guardItem item) with hnc
  set u : ℤ := if !validateUnitsPerCase u0 then 1 else u0 with hu
  have hupos : 0 < u := by
    rw [hu]
    rcases hv : validateUnitsPerCase u0 with _ | _
    · simp
    · simp only [Bool.not_true, if_false]
      exact ((validate_true_iff u0).mp hv).1
  have huq : (0 : ℚ) < (u : ℚ) := by exact_mod_cast hupos
  rw [if_pos hupos]
  rcases le_or_lt nc 0 with hle | hpos
  · have ht : nc / (u : ℚ) ≤ 0 := div_nonpos_iff.mpr (Or.inr ⟨hle, le_of_lt huq⟩)
    have hretail : ¬(nc / (u : ℚ) * (27 / 20) > 0) := by nlinarith
    rw [if_neg hretail]
    simp only [hle, iff_true]
    rw [decide_eq_true (by norm_num : (0 : ℚ) < 10)]
    rfl
  · have ht : 0 < nc / (u : ℚ) := div_pos hpos huq
    have hretail : nc / (u : ℚ) * (27 / 20) > 0 := by nlinarith
    rw [if_pos hretail]
    have hmargin : (nc / (u : ℚ) * (27 / 20) - nc / (u : ℚ)) / (nc / (u : ℚ) * (27 / 20)) * 100
        = 700 / 27 := by
      have hne : nc / (u : ℚ) ≠ 0 := ne_of_gt ht
      field_simp
      ring
    rw [hmargin]
    rw [decide_eq_false (by norm_num : ¬((700 : ℚ) / 27 < 10)),
      decide_eq_false (by norm_num : ¬((700 : ℚ) / 27 > 80))]
    simp only [Bool.or_false]
    constructor
    · intro hcontra
      cases hcontra
    · intro hcontra
      exact absurd hcontra (not_le.mpr hpos)

unseal Rat.mul Rat.inv Rat.add Rat.sub in
theorem C10_witness : c10li.marginWarning = false := by
  have h := C10_marginWarning_iff (rulesFor "") c10item c10li 0 rfl
  rcases hb : c10li.marginWarning with _ | _
  · rfl
  · exact absurd (h.mp hb) (by decide)

theorem rulesFor_cases (k : String) :
    rulesFor k = defaultRules ∨ rulesFor k = beverageBaseRules := by
  rcases h : vendorRules.lookup k with _ | r
  · exact Or.inr (rulesFor_lookup_none h)
  · have hr := rulesFor_lookup_some h
    unfold vendorRules at h
    rw [List.lookup] at h
    split at h
    · injection h with h'
      subst h'
      exact Or.inl hr
    · rw [List.lookup] at h
      split at h
      · injection h with h'
        subst h'
        exact Or.inr hr
      · rw [List.lookup] at h
        split at h
        · injection h with h'
          subst h'
          exact Or.inr hr
        · rw [List.lookup] at h
          cases h

unseal Rat.mul Rat.inv Rat.add Rat.sub in
/-- C1 counterexample: a line whose quantity field parses to exactly `0`
but whose line amount (`25`) and net cost (`5`) let the quantity corrector
replace the zero by `5`, so the normalized `qtyOrdered` is not `0`. -/
theorem C1_counterexample :
    safeIntPreserveZero (jsField (guardItem c1item) "qtyOrdered") 0 = 0 ∧
    (normalizeParsed c1raw).map (fun inv => inv.items.map (fun li => li.qtyOrdered)) =
      .ok [5] ∧
    (5 : ℤ) ≠ 0 :=
  ⟨by decide, rfl, by decide⟩

/-- C1 (amended): a successfully parsed `0` quantity is never replaced by a
default: whenever the rule set's extracted quantity is `0` and the line
amount is absent or unparseable (so the amount-based corrector cannot
fire), the normalized `qtyOrdered` is exactly `0`. -/
theorem C1_amended :
    ∀ (rules : VendorRuleSet) (item : JSVal) (li : NormalizedLineItem) (lt : ℚ),
      normalizeItem rules item = .ok (li, lt) →
      rules.normalizeQty (guardItem item) = 0 →
      rules.normalizeLineAmount (guardItem item) = none →
      li.qtyOrdered = 0 := by
  intro rules item li lt h hq hla
  rw [normalizeItem_eq] at h
  injection h with h'
  have hli : li = (normalizeItemCore rules (guardItem item)).1 := by rw [h']
  subst hli
  rw [core_qtyOrdered, hq, hla]
  exact correctQty_of_amt_none safeMoney_vnan

unseal Rat.mul Rat.inv Rat.add Rat.sub in
theorem C1_witness : c1wli.qtyOrdered = 0 :=
  C1_amended (rulesFor "") c1witem c1wli 0 rfl rfl rfl

unseal Rat.mul Rat.inv Rat.add Rat.sub in
/-- C7 counterexample: the integer sanitizer keeps a leading minus sign, so
a raw quantity of `"-3"` normalizes to `-3`, violating `qtyOrdered ≥ 0`. -/
theorem C7_counterexample :
    (normalizeParsed c7raw).map (fun inv => inv.items.map (fun li => li.qtyOrdered)) =
      .ok [(-3 : ℤ)] ∧
    ¬((0 : ℤ) ≤ -3) :=
  ⟨rfl, by decide⟩

/-- C7 (amended): the normalized `qtyOrdered` is always an integer, and it
is nonnegative whenever the raw quantity field's stringification carries no
minus sign; a raw minus sign is the only way to produce a negative
quantity. -/
theorem C7_amended :
    ∀ (vendorKey : String) (item : JSVal) (li : NormalizedLineItem) (lt : ℚ),
      normalizeItem (rulesFor vendorKey) item = .ok (li, lt) →
      '-' ∉ jsToString (jsField (guardItem item) "qtyOrdered") →
      0 ≤ li.qtyOrdered := by
  intro vendorKey item li lt h hnd
  rw [normalizeItem_eq] at h
  injection h with h'
  have hli : li = (normalizeItemCore (rulesFor vendorKey) (guardItem item)).1 := by rw [h']
  subst hli
  rw [core_qtyOrdered]
  apply correctQty_nonneg
  rcases rulesFor_cases vendorKey with hr | hr <;> rw [hr] <;>
    exact safeIntPreserveZero_nonneg hnd

unseal Rat.mul Rat.inv Rat.add Rat.sub in
theorem C7_witness : (0 : ℤ) ≤ c7wli.qtyOrdered :=
  C7_amended "" c7witem c7wli 0 rfl (by decide)

unseal Rat.mul Rat.inv Rat.add Rat.sub in
/-- C3 counterexample: with extracted quantity `7`, net cost `1000` and
line amount `1010.05`, the inferred quantity is `1` and lies within the
claim's tolerance (1% of the stated amount, `10.1005`), yet the code's
tolerance is 1% of the expected amount (`10`), which `10.05` exceeds — so
the code returns the original `7` where the claim demands `1`. -/
theorem C3_counterexample :
    correctQtyUsingAmount 7 (.vstr "1000") (.vstr "1010.05") = 7 ∧
    safeMoney (.vstr "1010.05") none = some (20201 / 20) ∧
    safeMoney (.vstr "1000") none = some 1000 ∧
    (0 < (1000 : ℚ)) ∧
    jsRound ((20201 / 20 : ℚ) / 1000) = 1 ∧
    (0 ≤ (1 : ℤ) ∧ (1 : ℤ) ≤ 9999) ∧
    |((1 : ℤ) : ℚ) * 1000 - 20201 / 20| ≤ max (1 / 20) ((20201 / 20) * (1 / 100)) ∧
    (7 : ℤ) ≠ 1 := by
  decide

/-- C3 (amended): the quantity corrector satisfies: a parseable line amount
with absolute value below `0.005` forces quantity `0`; else with a
parseable positive cost, `inferred = round(amount / cost)` is accepted
exactly when it lies in `[0, 9999]` and `inferred × cost` reproduces the
amount within the larger of `0.05` absolute or 1% of the *expected* amount
`inferred × cost` (not of the stated amount); in every other case the
extracted quantity is returned unchanged. -/
theorem C3_amended :
    ∀ (qtyOrdered : ℤ) (netCost lineAmount : JSVal),
      (safeMoney lineAmount none = none →
        correctQtyUsingAmount qtyOrdered netCost lineAmount = qtyOrdered) ∧
      (∀ a : ℚ, safeMoney lineAmount none = some a → |a| < 1 / 200 →
        correctQtyUsingAmount qtyOrdered netCost lineAmount = 0) ∧
      (∀ a c : ℚ, safeMoney lineAmount none = some a → ¬(|a| < 1 / 200) →
        safeMoney netCost none = some c → 0 < c →
        ((0 ≤ jsRound (a / c) ∧ jsRound (a / c) ≤ 9999 ∧
            |(jsRound (a / c) : ℚ) * c - a| ≤
              max (1 / 20) ((jsRound (a / c) : ℚ) * c * (1 / 100)) →
          correctQtyUsingAmount qtyOrdered netCost lineAmount = jsRound (a / c)) ∧
         (¬(0 ≤ jsRound (a / c) ∧ jsRound (a / c) ≤ 9999 ∧
            |(jsRound (a / c) : ℚ) * c - a| ≤
              max (1 / 20) ((jsRound (a / c) : ℚ) * c * (1 / 100))) →
          correctQtyUsingAmount qtyOrdered netCost lineAmount = qtyOrdered))) ∧
      (∀ a : ℚ, safeMoney lineAmount none = some a → ¬(|a| < 1 / 200) →
        (safeMoney netCost none = none ∨
          ∀ c : ℚ, safeMoney netCost none = some c → ¬(0 < c)) →
        correctQtyUsingAmount qtyOrdered netCost lineAmount = qtyOrdered) := by
  intro qtyOrdered netCost lineAmount
  refine ⟨?_, ?_, ?_, ?_⟩
  · intro h
    unfold correctQtyUsingAmount
    dsimp only
    rw [h]
  · intro a ha hlt
    unfold correctQtyUsingAmount
    dsimp only
    rw [ha]
    dsimp only
    rw [if_pos hlt]
  · intro a c ha hge hc hcpos
    unfold correctQtyUsingAmount
    dsimp only
    rw [ha]
    dsimp only
    rw [if_neg hge, hc]
    dsimp only
    rw [if_pos hcpos]
    constructor
    · rintro ⟨h1, h2, h3⟩
      rw [if_pos ⟨h1, h2⟩, if_pos h3]
    · intro hno
      by_cases h12 : 0 ≤ jsRound (a / c) ∧ jsRound (a / c) ≤ 9999
      · rw [if_pos h12, if_neg (fun h3 => hno ⟨h12.1, h12.2, h3⟩)]
      · rw [if_neg h12]
  · intro a ha hge hor
    unfold correctQtyUsingAmount
    dsimp only
    rw [ha]
    dsimp only
    rw [if_neg hge]
    rcases hcc : safeMoney netCost none with _ | c
    · rfl
    · dsimp only
      rcases hor with hnone | hall
      · rw [hcc] at hnone
        cases hnone
      · rw [if_neg (hall c hcc)]

unseal Rat.mul Rat.inv Rat.add Rat.sub in
theorem C3_witness : correctQtyUsingAmount 4 (.vstr "5.00") (.vstr "24.90") = 5 := by
  have h := ((C3_amended 4 (.vstr "5.00") (.vstr "24.90")).2.2.1 (249 / 10) 5
    (by decide) (by decide) (by decide) (by decide)).1 ⟨by decide, by decide, by decide⟩
  rw [h]
  decide

unseal Rat.mul Rat.inv Rat.add Rat.sub in
/-- C2 counterexample: two lines of `0.005 × 1` produce `grandTotal = 0.01`
(one rounding of the unrounded sum `0.01`), while the claim's formula —
round each line total to two decimals first, then round the sum — yields
`round2(0.01 + 0.01) = 0.02`. -/
theorem C2_counterexample :
    (normalizeParsed c2raw).map (fun inv =>
      (inv.grandTotal, round2 ((inv.items.map (fun li => li.lineTotal)).sum))) =
      .ok (1 / 100, 1 / 50) ∧
    (1 / 100 : ℚ) ≠ (1 / 50 : ℚ) :=
  ⟨rfl, by norm_num⟩

/-- C2 (amended): `grandTotal` is the sum of the *unrounded* per-line
products `netCost × qtyOrdered`, rounded once at the end; the per-line
`lineTotal` field is the product rounded to two decimals, but the rounded
line totals are not what is summed. -/
theorem C2_amended :
    ∀ (rawParsed : JSVal) (inv : Invoice) (pairs : List (NormalizedLineItem × ℚ)),
      normalizeParsed rawParsed = .ok inv →
      (itemsOf rawParsed).mapM
        (normalizeItem (rulesFor (String.mk (vendorKeyOf rawParsed)))) = .ok pairs →
      inv.items = pairs.map Prod.fst ∧
      inv.grandTotal = round2 ((pairs.map Prod.snd).sum) ∧
      ∀ pr ∈ pairs, pr.1.lineTotal = round2 pr.2 := by
  intro rawParsed inv pairs h1 h2
  rw [normalizeParsed_eq] at h1
  injection h1 with h1'
  subst h1'
  rw [mapM_normalizeItem_ok] at h2
  injection h2 with h2'
  subst h2'
  refine ⟨rfl, rfl, ?_⟩
  intro pr hpr
  obtain ⟨item, _, hitem⟩ := List.mem_map.mp hpr
  rw [← hitem]
  exact core_lineTotal _ _

unseal Rat.mul Rat.inv Rat.add Rat.sub in
theorem C2_witness :
    c2winv.grandTotal = round2 (([(c2wli, (36 : ℚ))].map Prod.snd).sum) :=
  (C2_amended c2wraw c2winv [(c2wli, 36)] rfl rfl).2.1

/-- C4: when the printed invoice total is present and the first-pass
`grandTotal` is within `0.05` of it, the response reports
`totalMatches = true` and no corrective retry is attempted; and in every
execution at most one corrective retry is ever attempted. -/
theorem C4_match_no_retry :
    (∀ (rawA : JSVal) (retry : Except Unit JSVal) (invA : Invoice) (q : ℚ),
      normalizeParsed rawA = .ok invA →
      invA.invoiceTotal = some (some q) →
      |invA.grandTotal - q| ≤ 1 / 20 →
      (∃ inv, (extractHandler rawA retry).1 = .ok inv ∧ inv.totalMatches = true) ∧
      (extractHandler rawA retry).2 = 0) ∧
    (∀ (rawA : JSVal) (retry : Except Unit JSVal), (extractHandler rawA retry).2 ≤ 1) := by
  constructor
  · intro rawA retry invA q h1 h2 h3
    rw [normalizeParsed_eq] at h1
    injection h1 with h1'
    subst h1'
    have h2' : invoiceTotalOf rawA = some (some q) := h2
    have hprint : printedTotalOf (invoiceTotalOf rawA) = some q := by
      rw [h2']
      exact printedTotalOf_roundtrip (invoiceTotalOf_isDec h2')
    have hmatch : totalsMatch
        (round2 ((((itemsOf rawA).map (fun item =>
          normalizeItemCore (rulesFor (String.mk (vendorKeyOf rawA)))
            (guardItem item))).map Prod.snd).sum)) (some q) (1 / 20) = true :=
      totalsMatch_of_close h3
    unfold extractHandler
    rw [normalizeParsed_eq]
    dsimp only
    rw [hprint, hmatch]
    dsimp only
    exact ⟨⟨_, rfl, rfl⟩, rfl⟩
  · intro rawA retry
    unfold extractHandler
    split
    · norm_num
    · dsimp only
      split
      · norm_num
      · split
        · norm_num
        · split
          · norm_num
          · split
            · norm_num
            · split <;> norm_num

unseal Rat.mul Rat.inv Rat.add Rat.sub in
theorem C4_witness :
    (extractHandler c4raw (.error ())).2 = 0 ∧
    ∃ inv, (extractHandler c4raw (.error ())).1 = .ok inv ∧ inv.totalMatches = true := by
  have h := C4_match_no_retry.1 c4raw (.error ()) c4inv 36 rfl rfl (by decide)
  exact ⟨h.2, h.1⟩

/-- C5: if the single corrective retry fails, the final response is the
first-pass result with exactly the warnings `TOTAL_MISMATCH_NEEDS_REVIEW`
and `RETRY_FAILED` appended (every other field unchanged), returned as a
normal, non-error response, with exactly one retry attempted. -/
theorem C5_retry_failure :
    ∀ (rawA : JSVal) (invA : Invoice) (p : ℚ) (u : Unit),
      normalizeParsed rawA = .ok invA →
      printedTotalOf invA.invoiceTotal = some p →
      totalsMatch invA.grandTotal (some p) (1 / 20) = false →
      extractHandler rawA (.error u) =
        (.ok { invA with
                totalMatches := false,
                warnings := invA.warnings ++
                  ["TOTAL_MISMATCH_NEEDS_REVIEW", "RETRY_FAILED"] },
         1) := by
  intro rawA invA p u h1 h2 h3
  unfold extractHandler
  rw [h1]
  dsimp only
  rw [h2, h3]
  dsimp only
  rw [Bool.and_false]
  rfl

unseal Rat.mul Rat.inv Rat.add Rat.sub in
theorem C5_witness :
    extractHandler c5raw (.error ()) =
      (.ok { c5inv with
              totalMatches := false,
              warnings := c5inv.warnings ++
                ["TOTAL_MISMATCH_NEEDS_REVIEW", "RETRY_FAILED"] },
       1) :=
  C5_retry_failure c5raw c5inv 50 () rfl rfl rfl

end InvoiceBackend
